import Mathlib

/-!
# Verification of the `integrate` library

Shallow embedding of `integrate/base_quadratures.py` and `integrate/adaptive.py`.

Modelling conventions:

* Python/NumPy floating-point values are idealised as exact rationals `ℚ`,
  except that invalid operations are tracked: the integrand values flowing
  through a quadrature rule live in `PF`, a rational extended with a `nan`
  element whose propagation mirrors NumPy float64 componentwise arithmetic
  (`0 * nan = nan`, `x / 0 = nan`, every comparison with `nan` is false,
  `nan != 0` is true).
* `functools.cache` on a pure function is the identity in a pure model.
* The float power `** 1.5` used in the calibrated error formula is not a
  rational operation; it is supplied as an abstract parameter `pw` of the
  Gauss-Kronrod embedding (it is only applied on the branch where both the
  deviation and the raw error are nonzero, and no property proved here
  depends on its values).
* The adaptive driver (`quad_vec`, `ndquad_vec`) is generic over the
  quadrature rule in the source, so it is embedded generically: the rule is a
  parameter, integrands are `Option`-valued (a `none` models a Python
  exception propagating out of an evaluation), and the unbounded `while`
  loop is given explicit fuel, with `none` standing for non-termination
  within the supplied fuel (the Python loop has no cap) or for a raised
  exception.
* `sys.float_info.epsilon = 2^(-52)` and `sys.float_info.min = 2^(-1022)`
  are used at their exact values.
-/

/-- Scalar float value: either a finite value (idealised as a rational) or
`nan`.  Models a single component of a NumPy float64 array. -/
inductive PF where
  | nan : PF
  | val (q : ℚ) : PF
deriving DecidableEq, Repr

namespace PF

/-- Addition; `nan` propagates (IEEE-754 / NumPy behaviour). -/
def add : PF → PF → PF
  | val x, val y => val (x + y)
  | _, _ => nan

/-- Subtraction; `nan` propagates. -/
def sub : PF → PF → PF
  | val x, val y => val (x - y)
  | _, _ => nan

/-- Multiplication; `nan` propagates, in particular `0 * nan = nan` as in
IEEE-754 / NumPy. -/
def mul : PF → PF → PF
  | val x, val y => val (x * y)
  | _, _ => nan

/-- Division; division by zero yields `nan` (NumPy float64 array semantics:
`0.0 / 0.0 = nan` with a warning, no exception), and `nan` propagates. -/
def div : PF → PF → PF
  | val x, val y => if y = 0 then nan else val (x / y)
  | _, _ => nan

/-- Absolute value; `nan` propagates. -/
def pabs : PF → PF
  | val x => val |x|
  | nan => nan

instance : Add PF := ⟨add⟩
instance : Sub PF := ⟨sub⟩
instance : Mul PF := ⟨mul⟩
instance : Div PF := ⟨div⟩

/-- Python `x != 0`: true for `nan` (`nan != 0` holds in Python/NumPy). -/
def neZero : PF → Bool
  | val x => decide (x ≠ 0)
  | nan => true

/-- Python `a > b`: any comparison involving `nan` is false. -/
def gtb : PF → PF → Bool
  | val x, val y => decide (y < x)
  | _, _ => false

/-- Python `a < b`: any comparison involving `nan` is false. -/
def ltb : PF → PF → Bool
  | val x, val y => decide (x < y)
  | _, _ => false

/-- Python two-argument `min(a, b)`: returns `b` exactly when `b < a`. -/
def pmin (a b : PF) : PF := if ltb b a then b else a

/-- Python two-argument `max(a, b)`: returns `b` exactly when `b > a`. -/
def pmax (a b : PF) : PF := if gtb b a then b else a

end PF

/-- Python `sum` over a list of float values, starting from the integer `0`. -/
def sumPF (l : List PF) : PF := l.foldl (· + ·) (PF.val 0)

/-- Exact value of `sys.float_info.epsilon` (double-precision machine
epsilon, `2^(-52)`). -/
def epsQ : ℚ := 1 / 2 ^ 52

/-- Exact value of `sys.float_info.min` (smallest positive normal double,
`2^(-1022)`). -/
def floatMinQ : ℚ := 1 / 2 ^ 1022

/-! ## `base_quadratures.trapezoid` -/

/-- Embedding of `trapezoid` from `base_quadratures.py`: 3-point
trapezoid/Simpson-style embedded pair.  Interval endpoints are floats (`ℚ`);
integrand values are `PF`; `norm_func` is an arbitrary function on values. -/
def trapezoid (f : PF → PF) (a b : ℚ) (norm_func : PF → PF) : PF × PF :=
  let x1 := a
  let x2 := 0.5 * (a + b)
  let x3 := b
  let f1 := f (PF.val x1)
  let f2 := f (PF.val x2)
  let f3 := f (PF.val x3)
  let s1 := PF.val (0.5 * (x3 - x1)) * (f1 + f3)
  let s2 := PF.val (0.25 * (x3 - x1)) * (f1 + PF.val 2 * f2 + f3)
  let round_err :=
    PF.val (0.25 * |x3 - x1|) * (norm_func f1 + PF.val 2 * norm_func f2 + norm_func f3) *
      PF.val 2e-16
  let err_estimate := PF.val (1/3) * norm_func (s1 - s2)
  let err_estimate :=
    if PF.gtb round_err (PF.val floatMinQ) then PF.pmax err_estimate round_err else err_estimate
  (s2, err_estimate)

/-- The low-order member of `trapezoid`'s embedded pair — the source's `s1`,
the 2-point trapezoid value `0.5*(b-a)*(f(a)+f(b))`. -/
def trapLowOrderVal (f : PF → PF) (a b : ℚ) : PF :=
  PF.val (0.5 * (b - a)) * (f (PF.val a) + f (PF.val b))

/-- The high-order member of `trapezoid`'s embedded pair — the source's `s2`,
the 3-point value `0.25*(b-a)*(f(a)+2*f((a+b)/2)+f(b))` (the "Simpson"
member in the spec's terminology). -/
def trapHighOrderVal (f : PF → PF) (a b : ℚ) : PF :=
  PF.val (0.25 * (b - a)) * (f (PF.val a) + PF.val 2 * f (PF.val (0.5 * (a + b))) + f (PF.val b))

/-- The pre-floor error estimate of the trapezoid rule as the spec describes
it (with the orientation the code uses: the low-order value minus the
high-order value inside the norm): `(1/3) * norm(s1 - s2)`. -/
def trapPreFloorErr (f : PF → PF) (a b : ℚ) (norm_func : PF → PF) : PF :=
  PF.val (1/3) * norm_func (trapLowOrderVal f a b - trapHighOrderVal f a b)

/-- Rounding-error floor of the trapezoid rule exactly as claim C7 words it:
`0.25*|b-a|*(norm(f1)+2*norm(f2)+norm(f3)) * 2*machine_epsilon` with
machine epsilon `2^(-52)`. -/
def trapRoundFloorClaimC7 (f : PF → PF) (a b : ℚ) (norm_func : PF → PF) : PF :=
  PF.val (0.25 * |b - a|) *
    (norm_func (f (PF.val a)) + PF.val 2 * norm_func (f (PF.val (0.5 * (a + b)))) +
      norm_func (f (PF.val b))) * PF.val (2 * epsQ)

/-- Rounding-error floor of the trapezoid rule with the literal constant the
code uses: `0.25*|b-a|*(norm(f1)+2*norm(f2)+norm(f3)) * 2e-16`. -/
def trapRoundFloor (f : PF → PF) (a b : ℚ) (norm_func : PF → PF) : PF :=
  PF.val (0.25 * |b - a|) *
    (norm_func (f (PF.val a)) + PF.val 2 * norm_func (f (PF.val (0.5 * (a + b)))) +
      norm_func (f (PF.val b))) * PF.val 2e-16

/-! ## `base_quadratures._generic_gauss_kronrod` -/

/-- `x_scaled`: affine map of the reference nodes onto `[a, b]`
(`(x_i + 1) * (b - a) / 2 + a`); pure float arithmetic on table constants. -/
def gk_x_scaled (x : List ℚ) (a b : ℚ) : List ℚ :=
  x.map fun t => (t + 1) * (b - a) / 2 + a

/-- `w_scaled` / `v_scaled`: reference weights scaled by `(b - a) / 2`. -/
def gk_w_scaled (w : List ℚ) (a b : ℚ) : List ℚ :=
  w.map fun t => t * (b - a) / 2

/-- `gk_estimate`: `sum([v_scaled[i] * f(x_scaled[i]) for i in range(len(x))])`.
Out-of-range indexing is modelled by `getD` with default `0`; the supplied
tables keep every index in range. -/
def gk_estimate_sum (f : PF → PF) (xs vs : List ℚ) (n : Nat) : PF :=
  sumPF ((List.range n).map fun i => PF.val (vs.getD i 0) * f (PF.val (xs.getD i 0)))

/-- `g_estimate`: `sum([w_scaled[i] * f(x_scaled[2*i+1]) for i in range(len(w))])`. -/
def gk_g_sum (f : PF → PF) (xs ws : List ℚ) (m : Nat) : PF :=
  sumPF ((List.range m).map fun i => PF.val (ws.getD i 0) * f (PF.val (xs.getD (2*i + 1) 0)))

/-- `avg_deviation_of_f` exactly as the source computes it:
`norm_func(sum([w_scaled[i] * abs(f(x_scaled[i]) - avg_of_f) for i in range(len(w))]))`
— the `w` weight list (the sparser, low-order one in the actual tables)
paired with the first `len(w)` nodes. -/
def gk_avg_deviation (f : PF → PF) (xs ws : List ℚ) (m : Nat) (avg : PF)
    (norm_func : PF → PF) : PF :=
  norm_func (sumPF ((List.range m).map fun i =>
    PF.val (ws.getD i 0) * PF.pabs (f (PF.val (xs.getD i 0)) - avg)))

/-- The average-deviation quantity as claim C4 (and the function's own
docstring) words it: the weighted sum of `|f(x_i) - avg|` over ALL nodes
using the full high-order (Kronrod) weight set. -/
def gk_avg_deviation_claimC4 (f : PF → PF) (xs vs : List ℚ) (n : Nat) (avg : PF)
    (norm_func : PF → PF) : PF :=
  norm_func (sumPF ((List.range n).map fun i =>
    PF.val (vs.getD i 0) * PF.pabs (f (PF.val (xs.getD i 0)) - avg)))

/-- Embedding of `_generic_gauss_kronrod` from `base_quadratures.py`.
`pw` abstracts the float `** 1.5` power (see the header comment). -/
def generic_gauss_kronrod (pw : PF → PF) (f : PF → PF) (a b : ℚ) (x w v : List ℚ)
    (norm_func : PF → PF) : PF × PF :=
  let x_scaled := gk_x_scaled x a b
  let w_scaled := gk_w_scaled w a b
  let v_scaled := gk_w_scaled v a b
  let gk_estimate := gk_estimate_sum f x_scaled v_scaled x.length
  let g_estimate := gk_g_sum f x_scaled w_scaled w.length
  let avg_of_f := gk_estimate / PF.val (b - a)
  let avg_deviation_of_f := gk_avg_deviation f x_scaled w_scaled w.length avg_of_f norm_func
  let gk_err_estimate := norm_func (gk_estimate - g_estimate)
  let err_estimate :=
    if PF.neZero avg_deviation_of_f && PF.neZero gk_err_estimate then
      avg_deviation_of_f *
        PF.pmin (PF.val 1) (pw (PF.val 200 * gk_err_estimate / avg_deviation_of_f))
    else gk_err_estimate
  let round_err := norm_func (PF.val (50 * epsQ) * avg_deviation_of_f)
  let err_estimate :=
    if PF.gtb round_err (PF.val floatMinQ) then PF.pmax err_estimate round_err else err_estimate
  (gk_estimate, err_estimate)

/-- Gauss-Kronrod 21 nodes (`x` in `gauss_kronrod_21`). -/
def gk21_x : List ℚ :=
  [0.995657163025808080735527280689003,
   0.973906528517171720077964012084452,
   0.930157491355708226001207180059508,
   0.865063366688984510732096688423493,
   0.780817726586416897063717578345042,
   0.679409568299024406234327365114874,
   0.562757134668604683339000099272694,
   0.433395394129247190799265943165784,
   0.294392862701460198131126603103866,
   0.148874338981631210884826001129720,
   0,
   -0.148874338981631210884826001129720,
   -0.294392862701460198131126603103866,
   -0.433395394129247190799265943165784,
   -0.562757134668604683339000099272694,
   -0.679409568299024406234327365114874,
   -0.780817726586416897063717578345042,
   -0.865063366688984510732096688423493,
   -0.930157491355708226001207180059508,
   -0.973906528517171720077964012084452,
   -0.995657163025808080735527280689003]

/-- 10-point weights (`w` in `gauss_kronrod_21`). -/
def gk21_w : List ℚ :=
  [0.066671344308688137593568809893332,
   0.149451349150580593145776339657697,
   0.219086362515982043995534934228163,
   0.269266719309996355091226921569469,
   0.295524224714752870173892994651338,
   0.295524224714752870173892994651338,
   0.269266719309996355091226921569469,
   0.219086362515982043995534934228163,
   0.149451349150580593145776339657697,
   0.066671344308688137593568809893332]

/-- 21-point weights (`v` in `gauss_kronrod_21`). -/
def gk21_v : List ℚ :=
  [0.011694638867371874278064396062192,
   0.032558162307964727478818972459390,
   0.054755896574351996031381300244580,
   0.075039674810919952767043140916190,
   0.093125454583697605535065465083366,
   0.109387158802297641899210590325805,
   0.123491976262065851077958109831074,
   0.134709217311473325928054001771707,
   0.142775938577060080797094273138717,
   0.147739104901338491374841515972068,
   0.149445554002916905664936468389821,
   0.147739104901338491374841515972068,
   0.142775938577060080797094273138717,
   0.134709217311473325928054001771707,
   0.123491976262065851077958109831074,
   0.109387158802297641899210590325805,
   0.093125454583697605535065465083366,
   0.075039674810919952767043140916190,
   0.054755896574351996031381300244580,
   0.032558162307964727478818972459390,
   0.011694638867371874278064396062192]

/-- Embedding of `gauss_kronrod_21`. -/
def gauss_kronrod_21 (pw : PF → PF) (f : PF → PF) (a b : ℚ) (norm_func : PF → PF) : PF × PF :=
  generic_gauss_kronrod pw f a b gk21_x gk21_w gk21_v norm_func

/-- Gauss-Kronrod 15 nodes (`x` in `gauss_kronrod_15`). -/
def gk15_x : List ℚ :=
  [0.991455371120812639206854697526329,
   0.949107912342758524526189684047851,
   0.864864423359769072789712788640926,
   0.741531185599394439863864773280788,
   0.586087235467691130294144838258730,
   0.405845151377397166906606412076961,
   0.207784955007898467600689403773245,
   0.000000000000000000000000000000000,
   -0.207784955007898467600689403773245,
   -0.405845151377397166906606412076961,
   -0.586087235467691130294144838258730,
   -0.741531185599394439863864773280788,
   -0.864864423359769072789712788640926,
   -0.949107912342758524526189684047851,
   -0.991455371120812639206854697526329]

/-- 7-point weights (`w` in `gauss_kronrod_15`). -/
def gk15_w : List ℚ :=
  [0.129484966168869693270611432679082,
   0.279705391489276667901467771423780,
   0.381830050505118944950369775488975,
   0.417959183673469387755102040816327,
   0.381830050505118944950369775488975,
   0.279705391489276667901467771423780,
   0.129484966168869693270611432679082]

/-- 15-point weights (`v` in `gauss_kronrod_15`). -/
def gk15_v : List ℚ :=
  [0.022935322010529224963732008058970,
   0.063092092629978553290700663189204,
   0.104790010322250183839876322541518,
   0.140653259715525918745189590510238,
   0.169004726639267902826583426598550,
   0.190350578064785409913256402421014,
   0.204432940075298892414161999234649,
   0.209482141084727828012999174891714,
   0.204432940075298892414161999234649,
   0.190350578064785409913256402421014,
   0.169004726639267902826583426598550,
   0.140653259715525918745189590510238,
   0.104790010322250183839876322541518,
   0.063092092629978553290700663189204,
   0.022935322010529224963732008058970]

/-- Embedding of `gauss_kronrod_15`. -/
def gauss_kronrod_15 (pw : PF → PF) (f : PF → PF) (a b : ℚ) (norm_func : PF → PF) : PF × PF :=
  generic_gauss_kronrod pw f a b gk15_x gk15_w gk15_v norm_func

/-! ## `adaptive.quad_vec` and `adaptive.ndquad_vec`

The adaptive layer of the source is generic over the quadrature rule, the
norm and the integrand, so it is embedded with those as parameters over
plain `ℚ` scalars. -/

/-- Type of a quadrature rule as consumed by the adaptive layer:
`quadrature(f, a, b, norm_func) -> (est, err)`; `none` models an exception
or non-termination inside the rule/integrand. -/
abbrev QuadRule := (ℚ → Option ℚ) → ℚ → ℚ → (ℚ → ℚ) → Option (ℚ × ℚ)

/-- A heap element of `quad_vec`: the tuple `(-err, a, b, est)` pushed onto
the `heapq` priority queue. -/
structure HeapEntry where
  negErr : ℚ
  lo : ℚ
  hi : ℚ
  est : ℚ
deriving DecidableEq, Repr

/-- Python's lexicographic tuple comparison on `(-err, a, b, est)`, which is
the order `heapq` uses. -/
def entryLE (e1 e2 : HeapEntry) : Bool :=
  if e1.negErr ≠ e2.negErr then decide (e1.negErr < e2.negErr)
  else if e1.lo ≠ e2.lo then decide (e1.lo < e2.lo)
  else if e1.hi ≠ e2.hi then decide (e1.hi < e2.hi)
  else decide (e1.est ≤ e2.est)

/-- Functional model of `heapq.heappop`: remove a minimal tuple (`heapq`
pops the smallest element; the queue is modelled as the multiset of pushed
entries).  `none` on the empty queue models the `IndexError`. -/
def popMin : List HeapEntry → Option (HeapEntry × List HeapEntry)
  | [] => none
  | e :: rest =>
    match popMin rest with
    | none => some (e, [])
    | some (m, rest') => if entryLE e m then some (e, rest) else some (m, e :: rest')

/-- One iteration of the `while` loop body of `quad_vec`: pop the interval
with the largest error, bisect it, evaluate the rule on both halves, update
the global accumulators, push the two children.  State is
`((global_est, global_err), intervals)`. -/
def quadVecStep (q : QuadRule) (f : ℚ → Option ℚ) (norm_func : ℚ → ℚ)
    (st : (ℚ × ℚ) × List HeapEntry) : Option ((ℚ × ℚ) × List HeapEntry) :=
  match popMin st.2 with
  | none => none
  | some (ek, rest) =>
    let err_k := -ek.negErr
    let m := (ek.lo + ek.hi) / 2
    match q f ek.lo m norm_func, q f m ek.hi norm_func with
    | some (est_left, err_left), some (est_right, err_right) =>
      some ((st.1.1 - ek.est + est_left + est_right,
             st.1.2 - err_k + err_left + err_right),
            ⟨-err_left, ek.lo, m, est_left⟩ :: ⟨-err_right, m, ek.hi, est_right⟩ :: rest)
    | _, _ => none

/-- The `while global_err > tol` loop of `quad_vec`, with fuel. -/
def quadVecLoop (q : QuadRule) (f : ℚ → Option ℚ) (norm_func : ℚ → ℚ) (tol : ℚ) :
    Nat → (ℚ × ℚ) × List HeapEntry → Option (ℚ × ℚ)
  | 0, _ => none
  | fuel + 1, st =>
    if st.1.2 > tol then
      match quadVecStep q f norm_func st with
      | none => none
      | some st' => quadVecLoop q f norm_func tol fuel st'
    else some st.1

/-- Embedding of `quad_vec` from `adaptive.py`: seed the state with one rule
evaluation over `[a, b]`, then run the subdivision loop. -/
def quad_vec (f : ℚ → Option ℚ) (a b tol : ℚ) (q : QuadRule) (norm_func : ℚ → ℚ)
    (fuel : Nat) : Option (ℚ × ℚ) :=
  match q f a b norm_func with
  | none => none
  | some (global_est, global_err) =>
    quadVecLoop q f norm_func tol fuel
      ((global_est, global_err), [⟨-global_err, a, b, global_est⟩])

/-- Embedding of `_bind_last_argument` from `adaptive.py`: fix the last
positional argument of a varargs function as `z`. -/
def bind_last_argument {α β : Type} (f : List α → β) (z : α) : List α → β :=
  fun args => f (args ++ [z])

/-- Embedding of `ndquad_vec` from `adaptive.py`.  The integrand and the
range functions take their positional arguments as a list.  An empty range
list hits `ranges[0]()` and raises `IndexError`, modelled as `none`. -/
def ndquad_vec (f : List ℚ → Option ℚ) (ranges : List (List ℚ → ℚ × ℚ)) (tol : ℚ)
    (q : QuadRule) (norm_func : ℚ → ℚ) (fuel : Nat) : Option (ℚ × ℚ) :=
  match ranges with
  | [] => none
  | [r0] => quad_vec (fun z => f [z]) (r0 []).1 (r0 []).2 tol q norm_func fuel
  | r0 :: rest =>
    q (fun z =>
        (ndquad_vec (bind_last_argument f z) (rest.map fun rng => bind_last_argument rng z)
            tol q norm_func fuel).map Prod.fst)
      (r0 []).1 (r0 []).2 norm_func
termination_by ranges.length
decreasing_by simp [List.length_map]

/-- The spec's description of the recursive case of the n-dimensional
driver (§4.3, claim C2): the outermost variable is integrated by a single
call of the plain quadrature rule applied to the inner function `g`, where
`g z` recursively calls the driver with `z` bound as trailing argument of
the integrand and of every remaining range function, keeping only the inner
estimate and discarding the inner error; the rule call's pair is returned
as is. -/
def ndquad_vec_outer_spec (f : List ℚ → Option ℚ) (r0 : List ℚ → ℚ × ℚ)
    (rest : List (List ℚ → ℚ × ℚ)) (tol : ℚ) (q : QuadRule) (norm_func : ℚ → ℚ)
    (fuel : Nat) : Option (ℚ × ℚ) :=
  q (fun z =>
      (ndquad_vec (bind_last_argument f z) (rest.map fun rng => bind_last_argument rng z)
          tol q norm_func fuel).map Prod.fst)
    (r0 []).1 (r0 []).2 norm_func

/-- A degenerate quadrature rule, used to instantiate the generic driver in
witnesses: it "integrates" by evaluating the integrand at the lower limit
and reports zero error. -/
def qEvalLow : QuadRule := fun g a _b _norm => (g a).map fun y => (y, 0)

/-- The argument list at which `ndquad_vec` instantiated with `qEvalLow`
evaluates its integrand: every dimension is fixed at the lower limit of its
range, and bound values are appended back-to-front (the outermost range's
value comes last). -/
def ndLowArgs (ranges : List (List ℚ → ℚ × ℚ)) : List ℚ :=
  match ranges with
  | [] => []
  | [r0] => [(r0 []).1]
  | r0 :: rest =>
    ndLowArgs (rest.map fun rng => bind_last_argument rng ((r0 []).1)) ++ [(r0 []).1]
termination_by ranges.length
decreasing_by simp [List.length_map]

/-- The priority-queue bookkeeping invariant of `quad_vec` (claim C5): the
queued estimates sum to the maintained global estimate and the queued errors
(recovered from the stored `-err` keys) sum to the maintained global
error. -/
def queueInv (st : (ℚ × ℚ) × List HeapEntry) : Prop :=
  (st.2.map HeapEntry.est).sum = st.1.1 ∧ (st.2.map fun e => -e.negErr).sum = st.1.2

/-! ## Basic lemmas about `PF` and `sumPF` -/

namespace PF

@[simp] theorem val_add (x y : ℚ) : val x + val y = val (x + y) := rfl
@[simp] theorem nan_add (p : PF) : nan + p = nan := rfl
@[simp] theorem add_nan (p : PF) : p + nan = nan := by cases p <;> rfl
@[simp] theorem val_sub (x y : ℚ) : val x - val y = val (x - y) := rfl
@[simp] theorem nan_sub (p : PF) : nan - p = nan := rfl
@[simp] theorem sub_nan (p : PF) : p - nan = nan := by cases p <;> rfl
@[simp] theorem val_mul (x y : ℚ) : val x * val y = val (x * y) := rfl
@[simp] theorem nan_mul (p : PF) : nan * p = nan := rfl
@[simp] theorem mul_nan (p : PF) : p * nan = nan := by cases p <;> rfl
@[simp] theorem nan_div (p : PF) : nan / p = nan := rfl
@[simp] theorem div_nan (p : PF) : p / nan = nan := by cases p <;> rfl

@[simp] theorem val_div (x y : ℚ) :
    val x / val y = if y = 0 then nan else val (x / y) := rfl

@[simp] theorem pabs_val (x : ℚ) : pabs (val x) = val |x| := rfl
@[simp] theorem pabs_nan : pabs nan = nan := rfl
@[simp] theorem neZero_val (x : ℚ) : neZero (val x) = decide (x ≠ 0) := rfl
@[simp] theorem neZero_nan : neZero nan = true := rfl
@[simp] theorem gtb_val (x y : ℚ) : gtb (val x) (val y) = decide (y < x) := rfl
@[simp] theorem gtb_nan_left (p : PF) : gtb nan p = false := rfl
@[simp] theorem gtb_nan_right (p : PF) : gtb p nan = false := by cases p <;> rfl
@[simp] theorem ltb_val (x y : ℚ) : ltb (val x) (val y) = decide (x < y) := rfl
@[simp] theorem ltb_nan_left (p : PF) : ltb nan p = false := rfl
@[simp] theorem ltb_nan_right (p : PF) : ltb p nan = false := by cases p <;> rfl

end PF

theorem sumPF_congr_zero (l : List PF) (h : ∀ p ∈ l, p = PF.val 0) :
    sumPF l = PF.val 0 := by
  suffices haux : ∀ (l : List PF) (acc : ℚ), (∀ p ∈ l, p = PF.val 0) →
      l.foldl (· + ·) (PF.val acc) = PF.val acc by
    simpa [sumPF] using haux l 0 h
  intro l
  induction l with
  | nil => intro acc _; rfl
  | cons hd tl ih =>
    intro acc hmem
    have hhd : hd = PF.val 0 := hmem hd (by simp)
    have htl : ∀ p ∈ tl, p = PF.val 0 := fun p hp => hmem p (by simp [hp])
    simp only [List.foldl_cons, hhd, PF.val_add, add_zero]
    exact ih acc htl

theorem foldl_nan (l : List PF) : l.foldl (· + ·) PF.nan = PF.nan := by
  induction l with
  | nil => rfl
  | cons hd tl ih => simpa using ih

theorem sumPF_of_mem_nan (l : List PF) (h : PF.nan ∈ l) : sumPF l = PF.nan := by
  suffices haux : ∀ (l : List PF) (acc : PF), PF.nan ∈ l →
      l.foldl (· + ·) acc = PF.nan by
    simpa [sumPF] using haux l (PF.val 0) h
  intro l
  induction l with
  | nil => intro acc h; cases h
  | cons hd tl ih =>
    intro acc hmem
    rcases List.mem_cons.mp hmem with h1 | h2
    · subst h1; simpa using foldl_nan tl
    · exact ih _ h2

/-! ## Trapezoid rule: claims C6, C7, C10 -/

theorem trapezoid_decomp (f : PF → PF) (a b : ℚ) (norm_func : PF → PF) :
    trapezoid f a b norm_func =
      (trapHighOrderVal f a b,
       if PF.gtb (trapRoundFloor f a b norm_func) (PF.val floatMinQ) then
         PF.pmax (trapPreFloorErr f a b norm_func) (trapRoundFloor f a b norm_func)
       else trapPreFloorErr f a b norm_func) := rfl

theorem floatMinQ_pos : 0 < floatMinQ := by norm_num [floatMinQ]

/-- C7 (claim as stated is false): on `f = id`, `[0,1]`, `norm = abs`, the
trapezoid rule returns exactly its rounding floor, which is `1e-16`, while
the claimed formula `0.25*|b-a|*(norm f1 + 2 norm f2 + norm f3)*2*2^(-52)`
evaluates to `2^(-52) ≠ 1e-16`. -/
theorem trapezoid_round_floor_counterexample :
    (trapezoid (fun p => p) 0 1 PF.pabs).2 = PF.val (1/10^16) ∧
    trapRoundFloorClaimC7 (fun p => p) 0 1 PF.pabs ≠ PF.val (1/10^16) := by
  constructor
  · norm_num [trapezoid, PF.pmax, PF.pmin, floatMinQ, abs_of_nonneg]
  · norm_num [trapRoundFloorClaimC7, epsQ, abs_of_nonneg]

/-- C7 (amended): the trapezoid rule's rounding floor uses the literal
constant `2e-16` (not `2 * machine_epsilon`), its pre-floor error estimate
is `(1/3) * norm(s1 - s2)` with `s1` the 2-point trapezoid value and `s2`
the 3-point high-order value, the returned estimate is `s2`, and the floor
replaces the error exactly when it exceeds `sys.float_info.min`. -/
theorem trapezoid_error_formula (f : PF → PF) (a b : ℚ) (norm_func : PF → PF) :
    trapezoid f a b norm_func =
      (trapHighOrderVal f a b,
       if PF.gtb (trapRoundFloor f a b norm_func) (PF.val floatMinQ) then
         PF.pmax (trapPreFloorErr f a b norm_func) (trapRoundFloor f a b norm_func)
       else trapPreFloorErr f a b norm_func) :=
  trapezoid_decomp f a b norm_func

/-- C6 (claim as stated is false): the trapezoid rule on the linear
integrand `f = id` over `[0, 1]` with the absolute-value norm returns the
nonzero error `1e-16` (the rounding floor), not zero. -/
theorem trapezoid_linear_nonzero_error :
    (trapezoid (fun p => p) 0 1 PF.pabs).2 ≠ PF.val 0 := by
  norm_num [trapezoid, PF.pmax, PF.pmin, floatMinQ, abs_of_nonneg]

/-- C6 (amended): on a linear integrand (degree ≤ 1) the trapezoid rule's
discrepancy-based error term is exactly zero, so the returned error equals
the rounding floor when that floor exceeds `sys.float_info.min`, and zero
otherwise. -/
theorem trapezoid_linear_error_eq_floor (c d a b : ℚ) (f : PF → PF) (norm_func : PF → PF)
    (hf : ∀ q : ℚ, f (PF.val q) = PF.val (c + d * q))
    (hn0 : norm_func (PF.val 0) = PF.val 0) :
    (trapezoid f a b norm_func).2 =
      if PF.gtb (trapRoundFloor f a b norm_func) (PF.val floatMinQ) then
        trapRoundFloor f a b norm_func
      else PF.val 0 := by
  have key : trapPreFloorErr f a b norm_func = PF.val 0 := by
    have hdiff : 0.5 * (b - a) * ((c + d * a) + (c + d * b)) -
        0.25 * (b - a) * ((c + d * a) + 2 * (c + d * (0.5 * (a + b))) + (c + d * b)) = 0 := by
      ring
    simp only [trapPreFloorErr, trapLowOrderVal, trapHighOrderVal, hf,
      PF.val_mul, PF.val_add, PF.val_sub]
    rw [show (2:ℚ) * (c + d * (0.5 * (a + b))) = 2 * (c + d * (0.5 * (a + b))) from rfl]
    rw [show 0.5 * (b - a) * ((c + d * a) + (c + d * b)) -
        0.25 * (b - a) * ((c + d * a) + 2 * (c + d * (0.5 * (a + b))) + (c + d * b)) = 0
      from hdiff, hn0]
    norm_num
  rw [show (trapezoid f a b norm_func).2 =
      (if PF.gtb (trapRoundFloor f a b norm_func) (PF.val floatMinQ) then
        PF.pmax (trapPreFloorErr f a b norm_func) (trapRoundFloor f a b norm_func)
      else trapPreFloorErr f a b norm_func)
    from congrArg Prod.snd (trapezoid_decomp f a b norm_func), key]
  by_cases hR : PF.gtb (trapRoundFloor f a b norm_func) (PF.val floatMinQ) = true
  · rw [if_pos hR, if_pos hR]
    cases hRv : trapRoundFloor f a b norm_func with
    | nan => rw [hRv] at hR; simp at hR
    | val r =>
      rw [hRv] at hR
      simp only [PF.gtb_val, decide_eq_true_eq] at hR
      have hr0 : 0 < r := lt_trans floatMinQ_pos hR
      simp [PF.pmax, hr0]
  · rw [if_neg hR, if_neg hR]

/-- C6 witness: the amended statement instantiated at `f = id`, `[0,1]`,
`norm = abs`. -/
theorem trapezoid_linear_error_eq_floor_witness :
    (trapezoid (fun p => p) 0 1 PF.pabs).2 =
      if PF.gtb (trapRoundFloor (fun p => p) 0 1 PF.pabs) (PF.val floatMinQ) then
        trapRoundFloor (fun p => p) 0 1 PF.pabs
      else PF.val 0 :=
  trapezoid_linear_error_eq_floor 0 1 0 1 (fun p => p) PF.pabs
    (fun q => by norm_num) (by norm_num)

/-- C10: the estimate returned by the trapezoid rule is the 3-point
high-order value `0.25*(b-a)*(f(a)+2*f((a+b)/2)+f(b))` for every integrand,
interval and norm; and it differs from the 2-point trapezoid value `s1` in
general (witnessed by `f = x^2` on `[0,1]`). -/
theorem trapezoid_returns_high_order :
    (∀ (f : PF → PF) (a b : ℚ) (norm_func : PF → PF),
        (trapezoid f a b norm_func).1 = trapHighOrderVal f a b) ∧
    (trapezoid (fun p => p * p) 0 1 PF.pabs).1 ≠ trapLowOrderVal (fun p => p * p) 0 1 := by
  constructor
  · intro f a b norm_func; rfl
  · norm_num [trapezoid, trapLowOrderVal]

/-! ## Gauss-Kronrod rules: claims C3, C4 -/

theorem getD_map_const_zero (l : List ℚ) (i : ℕ) :
    (l.map fun _ => (0:ℚ)).getD i 0 = 0 := by
  rcases Nat.lt_or_ge i l.length with h | h
  · rw [List.getD_eq_getElem?_getD, List.getElem?_map, List.getElem?_eq_getElem h]
    rfl
  · rw [List.getD_eq_getElem?_getD, List.getElem?_map,
      List.getElem?_eq_none (by simpa using h)]
    rfl

theorem getD_map_const (l : List ℚ) (i : ℕ) (a : ℚ) (h : i < l.length) :
    (l.map fun _ => a).getD i 0 = a := by
  rw [List.getD_eq_getElem?_getD, List.getElem?_map, List.getElem?_eq_getElem h]
  rfl

theorem gk_x_scaled_degenerate (x : List ℚ) (a : ℚ) :
    gk_x_scaled x a a = x.map fun _ => a := by
  simp [gk_x_scaled]

theorem gk_w_scaled_degenerate (w : List ℚ) (a : ℚ) :
    gk_w_scaled w a a = w.map fun _ => (0:ℚ) := by
  simp [gk_w_scaled]

theorem generic_gk_degenerate (pw f norm_func : PF → PF) (a c : ℚ) (x w v : List ℚ)
    (hwx : ∀ i, i < w.length → 2*i + 1 < x.length)
    (hfa : f (PF.val a) = PF.val c)
    (hn0 : norm_func (PF.val 0) = PF.val 0)
    (hnn : norm_func PF.nan = PF.nan) :
    generic_gauss_kronrod pw f a a x w v norm_func = (PF.val 0, PF.val 0) := by
  have hxsD : ∀ i, i < x.length → (gk_x_scaled x a a).getD i 0 = a := by
    intro i hi; rw [gk_x_scaled_degenerate]; exact getD_map_const x i a hi
  have hwsD : ∀ i, (gk_w_scaled w a a).getD i 0 = 0 := by
    intro i; rw [gk_w_scaled_degenerate]; exact getD_map_const_zero w i
  have hvsD : ∀ i, (gk_w_scaled v a a).getD i 0 = 0 := by
    intro i; rw [gk_w_scaled_degenerate]; exact getD_map_const_zero v i
  have hgk : gk_estimate_sum f (gk_x_scaled x a a) (gk_w_scaled v a a) x.length = PF.val 0 := by
    apply sumPF_congr_zero
    intro p hp
    simp only [List.mem_map, List.mem_range] at hp
    obtain ⟨i, hi, rfl⟩ := hp
    rw [hvsD i, hxsD i hi, hfa]
    simp
  have hg : gk_g_sum f (gk_x_scaled x a a) (gk_w_scaled w a a) w.length = PF.val 0 := by
    apply sumPF_congr_zero
    intro p hp
    simp only [List.mem_map, List.mem_range] at hp
    obtain ⟨i, hi, rfl⟩ := hp
    rw [hwsD i, hxsD _ (hwx i hi), hfa]
    simp
  have hfm : ¬(floatMinQ < (0:ℚ)) := by norm_num [floatMinQ]
  have hdev : gk_avg_deviation f (gk_x_scaled x a a) (gk_w_scaled w a a) w.length
      (gk_estimate_sum f (gk_x_scaled x a a) (gk_w_scaled v a a) x.length / PF.val (a - a))
      norm_func = PF.val 0 ∨
      gk_avg_deviation f (gk_x_scaled x a a) (gk_w_scaled w a a) w.length
      (gk_estimate_sum f (gk_x_scaled x a a) (gk_w_scaled v a a) x.length / PF.val (a - a))
      norm_func = PF.nan := by
    have havg : gk_estimate_sum f (gk_x_scaled x a a) (gk_w_scaled v a a) x.length /
        PF.val (a - a) = PF.nan := by
      rw [hgk]; simp
    unfold gk_avg_deviation
    rw [havg]
    cases w with
    | nil => left; simpa [sumPF] using hn0
    | cons wh wt =>
      right
      rw [sumPF_of_mem_nan _ (List.mem_map.mpr ⟨0, by simp, by simp⟩), hnn]
  rcases hdev with h | h <;>
    simp only [generic_gauss_kronrod] <;>
    rw [h, hgk, hg] <;>
    simp [hn0, hnn, hfm]

/-- C3: each of the three quadrature rules, called on a degenerate interval
`a == a` with any abstract power function, any integrand finite at `a`, and
any norm that sends zero to zero and propagates `nan`, returns the zero
estimate and zero error (no exception in the NumPy-array model; the
returned pair is finite). -/
theorem rules_degenerate_interval (pw f norm_func : PF → PF) (a c : ℚ)
    (hfa : f (PF.val a) = PF.val c)
    (hn0 : norm_func (PF.val 0) = PF.val 0)
    (hnn : norm_func PF.nan = PF.nan) :
    gauss_kronrod_15 pw f a a norm_func = (PF.val 0, PF.val 0) ∧
    gauss_kronrod_21 pw f a a norm_func = (PF.val 0, PF.val 0) ∧
    trapezoid f a a norm_func = (PF.val 0, PF.val 0) := by
  refine ⟨?_, ?_, ?_⟩
  · exact generic_gk_degenerate pw f norm_func a c gk15_x gk15_w gk15_v
      (by intro i hi; simp [gk15_w] at hi; simp [gk15_x]; omega) hfa hn0 hnn
  · exact generic_gk_degenerate pw f norm_func a c gk21_x gk21_w gk21_v
      (by intro i hi; simp [gk21_w] at hi; simp [gk21_x]; omega) hfa hn0 hnn
  · have hmid : (0.5:ℚ) * (a + a) = a := by ring
    have hhi : trapHighOrderVal f a a = PF.val 0 := by
      unfold trapHighOrderVal
      rw [hmid, hfa]
      simp
    have hlo : trapLowOrderVal f a a = PF.val 0 := by
      unfold trapLowOrderVal
      rw [hfa]
      simp
    have hpre : trapPreFloorErr f a a norm_func = PF.val 0 := by
      unfold trapPreFloorErr
      rw [hhi, hlo]
      simp [hn0]
    have hfm : ¬(floatMinQ < (0:ℚ)) := by norm_num [floatMinQ]
    have hround : trapRoundFloor f a a norm_func = PF.val 0 ∨
        trapRoundFloor f a a norm_func = PF.nan := by
      unfold trapRoundFloor
      rw [hmid, hfa]
      cases hcase : norm_func (PF.val c) with
      | nan => right; simp [hcase]
      | val r => left; simp [hcase]
    rw [trapezoid_decomp, hpre, hhi]
    rcases hround with h | h <;> rw [h] <;> simp [hfm, PF.pmax]

/-- C3 witness: all three rules at the concrete degenerate input `a = b = 5`
with identity integrand, identity power and identity norm. -/
theorem rules_degenerate_interval_witness :
    gauss_kronrod_15 (fun p => p) (fun p => p) 5 5 (fun p => p) = (PF.val 0, PF.val 0) ∧
    gauss_kronrod_21 (fun p => p) (fun p => p) 5 5 (fun p => p) = (PF.val 0, PF.val 0) ∧
    trapezoid (fun p => p) 5 5 (fun p => p) = (PF.val 0, PF.val 0) :=
  rules_degenerate_interval (fun p => p) (fun p => p) (fun p => p) 5 5 rfl rfl rfl

set_option maxHeartbeats 1000000 in
/-- C4 (the code diverges from the claim): in the `gauss_kronrod_15` call
with integrand `f = id` on `[0, 1]` and the absolute-value norm, the
average-deviation quantity the code feeds into the calibrated error formula
(`gk_avg_deviation`, built from the `w` weight list over the first `len(w)`
nodes) differs from the quantity the claim describes
(`gk_avg_deviation_claimC4`, the full high-order `v` weight set over all
nodes).  The average `avg_of_f` is the one the rule itself computes at this
call. -/
theorem gk15_avg_deviation_neq_claimC4 :
    gk_avg_deviation (fun p => p) (gk_x_scaled gk15_x 0 1) (gk_w_scaled gk15_w 0 1)
        gk15_w.length
        (gk_estimate_sum (fun p => p) (gk_x_scaled gk15_x 0 1) (gk_w_scaled gk15_v 0 1)
            gk15_x.length / PF.val ((1:ℚ) - 0)) PF.pabs ≠
    gk_avg_deviation_claimC4 (fun p => p) (gk_x_scaled gk15_x 0 1) (gk_w_scaled gk15_v 0 1)
        gk15_x.length
        (gk_estimate_sum (fun p => p) (gk_x_scaled gk15_x 0 1) (gk_w_scaled gk15_v 0 1)
            gk15_x.length / PF.val ((1:ℚ) - 0)) PF.pabs := by
  norm_num [gk_avg_deviation, gk_avg_deviation_claimC4, gk_estimate_sum, gk_x_scaled,
    gk_w_scaled, gk15_x, gk15_w, gk15_v, sumPF, List.range_succ, abs_of_nonneg, abs_of_nonpos]

/-! ## Adaptive layer: claims C1, C2, C5, C8, C9 -/

theorem popMin_cons_ne_none (e : HeapEntry) (rest : List HeapEntry) :
    popMin (e :: rest) ≠ none := by
  cases h : popMin rest with
  | none => simp [popMin, h]
  | some p =>
    obtain ⟨m, rest'⟩ := p
    by_cases hle : entryLE e m <;> simp [popMin, h, hle]

theorem popMin_perm : ∀ (l : List HeapEntry) (e : HeapEntry) (l' : List HeapEntry),
    popMin l = some (e, l') → l.Perm (e :: l') := by
  intro l
  induction l with
  | nil => intro e l' h; simp [popMin] at h
  | cons hd tl ih =>
    intro e l' h
    cases htl : popMin tl with
    | none =>
      have htl' : tl = [] := by
        cases tl with
        | nil => rfl
        | cons x xs => exact absurd htl (popMin_cons_ne_none x xs)
      subst htl'
      simp only [popMin] at h
      obtain ⟨rfl, rfl⟩ := Prod.mk.injEq .. ▸ Option.some.inj h
      exact List.Perm.refl _
    | some p =>
      obtain ⟨m, rest'⟩ := p
      simp only [popMin, htl] at h
      by_cases hle : entryLE hd m
      · rw [if_pos hle] at h
        obtain ⟨rfl, rfl⟩ := Prod.mk.injEq .. ▸ Option.some.inj h
        exact List.Perm.refl _
      · rw [if_neg hle] at h
        obtain ⟨rfl, rfl⟩ := Prod.mk.injEq .. ▸ Option.some.inj h
        exact ((ih m rest' htl).cons hd).trans (List.Perm.swap m hd rest')

theorem quadVecLoop_tol (q : QuadRule) (f : ℚ → Option ℚ) (norm_func : ℚ → ℚ) (tol : ℚ) :
    ∀ (fuel : Nat) (st : (ℚ × ℚ) × List HeapEntry) (est err : ℚ),
      quadVecLoop q f norm_func tol fuel st = some (est, err) → err ≤ tol := by
  intro fuel
  induction fuel with
  | zero => intro st est err h; simp [quadVecLoop] at h
  | succ k ih =>
    intro st est err h
    rw [quadVecLoop] at h
    by_cases hgt : st.1.2 > tol
    · rw [if_pos hgt] at h
      cases hstep : quadVecStep q f norm_func st with
      | none => rw [hstep] at h; cases h
      | some st' => rw [hstep] at h; exact ih st' est err h
    · rw [if_neg hgt] at h
      have h2 : st.1 = (est, err) := Option.some.inj h
      have : err = st.1.2 := by rw [h2]
      rw [this]
      exact not_lt.mp hgt

/-- C1: whenever `quad_vec` returns normally (for any integrand, interval,
tolerance, rule, norm and fuel), the returned global error estimate is at
most the tolerance: the `while global_err > tol` loop only falls through
when the maintained global error is `<= tol`, and the current
`(global_est, global_err)` pair is returned unchanged at that point. -/
theorem quad_vec_err_le_tol (f : ℚ → Option ℚ) (a b tol : ℚ) (q : QuadRule)
    (norm_func : ℚ → ℚ) (fuel : Nat) (est err : ℚ)
    (h : quad_vec f a b tol q norm_func fuel = some (est, err)) : err ≤ tol := by
  unfold quad_vec at h
  cases hq : q f a b norm_func with
  | none => rw [hq] at h; cases h
  | some p =>
    obtain ⟨ge, gerr⟩ := p
    rw [hq] at h
    exact quadVecLoop_tol q f norm_func tol fuel _ est err h

/-- C1 witness: a concrete terminating run. -/
theorem quad_vec_err_le_tol_witness : (0:ℚ) ≤ 1 :=
  quad_vec_err_le_tol (fun _ => some 0) 0 1 1 qEvalLow (fun x => x) 1 0 0
    (by norm_num [quad_vec, qEvalLow, quadVecLoop])

/-- C5: the bookkeeping invariant of `quad_vec`'s priority queue — queued
estimates sum to the maintained global estimate and queued errors sum to
the maintained global error — holds for the initial state built from the
seeding rule evaluation, and is preserved by every loop iteration
(`quadVecStep`). -/
theorem quad_vec_queue_invariant (q : QuadRule) (f : ℚ → Option ℚ) (norm_func : ℚ → ℚ)
    (a b ge gerr : ℚ) :
    queueInv ((ge, gerr), [⟨-gerr, a, b, ge⟩]) ∧
    ∀ st st', queueInv st → quadVecStep q f norm_func st = some st' → queueInv st' := by
  constructor
  · constructor <;> simp [queueInv]
  · intro st st' hinv hstep
    obtain ⟨h1, h2⟩ := hinv
    unfold quadVecStep at hstep
    cases hpop : popMin st.2 with
    | none => rw [hpop] at hstep; cases hstep
    | some p =>
      obtain ⟨ek, rest⟩ := p
      rw [hpop] at hstep
      dsimp only at hstep
      cases hL : q f ek.lo ((ek.lo + ek.hi) / 2) norm_func with
      | none => rw [hL] at hstep; cases hstep
      | some pl =>
        obtain ⟨est_left, err_left⟩ := pl
        cases hR : q f ((ek.lo + ek.hi) / 2) ek.hi norm_func with
        | none => rw [hL, hR] at hstep; cases hstep
        | some pr =>
          obtain ⟨est_right, err_right⟩ := pr
          rw [hL, hR] at hstep
          have hperm := popMin_perm st.2 ek rest hpop
          have hs1 : (st.2.map HeapEntry.est).sum =
              ek.est + (rest.map HeapEntry.est).sum := by
            rw [(hperm.map HeapEntry.est).sum_eq]; simp
          have hs2 : (st.2.map fun e => -e.negErr).sum =
              -ek.negErr + ((rest.map fun e => -e.negErr).sum) := by
            rw [(hperm.map fun e => -e.negErr).sum_eq]; simp
          obtain rfl : ((st.1.1 - ek.est + est_left + est_right,
              st.1.2 - -ek.negErr + err_left + err_right),
              (⟨-err_left, ek.lo, (ek.lo + ek.hi) / 2, est_left⟩ : HeapEntry) ::
                ⟨-err_right, (ek.lo + ek.hi) / 2, ek.hi, est_right⟩ :: rest) = st' :=
            Option.some.inj hstep
          constructor
          · simp only [List.map_cons, List.sum_cons]
            have := h1
            rw [hs1] at this
            linarith
          · simp only [List.map_cons, List.sum_cons, neg_neg]
            have := h2
            rw [hs2] at this
            linarith

/-- C5 witness: the preservation half applied to a concrete step of the
loop. -/
theorem quad_vec_queue_invariant_witness :
    queueInv ((2, 0), [⟨0, 0, 1, 1⟩, ⟨0, 1, 2, 1⟩]) :=
  (quad_vec_queue_invariant qEvalLow (fun _ => some 1) (fun x => x) 0 2 7 1).2
    ((7, 1), [⟨-1, 0, 2, 7⟩]) ((2, 0), [⟨0, 0, 1, 1⟩, ⟨0, 1, 2, 1⟩])
    (by norm_num [queueInv]) (by norm_num [quadVecStep, popMin, qEvalLow])

/-- C2: with more than one range function, `ndquad_vec` integrates the
outermost variable by a single direct call of the supplied quadrature rule
on the inner function `g` (never by `quad_vec`), and returns that rule
call's `(estimate, error)` pair as is; every recursive inner integration's
error is discarded via `.map Prod.fst` — exactly the spec-side description
`ndquad_vec_outer_spec`. -/
theorem ndquad_vec_outer_rule (f : List ℚ → Option ℚ) (r0 r1 : List ℚ → ℚ × ℚ)
    (rs : List (List ℚ → ℚ × ℚ)) (tol : ℚ) (q : QuadRule) (norm_func : ℚ → ℚ)
    (fuel : Nat) :
    ndquad_vec f (r0 :: r1 :: rs) tol q norm_func fuel =
      ndquad_vec_outer_spec f r0 (r1 :: rs) tol q norm_func fuel := by
  rw [ndquad_vec, ndquad_vec_outer_spec]
  simp

theorem ndquad_eval_low_aux (ranges : List (List ℚ → ℚ × ℚ)) (f : List ℚ → Option ℚ)
    (tol : ℚ) (norm_func : ℚ → ℚ) (fuel : Nat)
    (hne : ranges ≠ []) (htol : 0 < tol) (hfuel : 1 ≤ fuel) :
    ndquad_vec f ranges tol qEvalLow norm_func fuel =
      (f (ndLowArgs ranges)).map fun y => (y, 0) := by
  match ranges with
  | [] => exact absurd rfl hne
  | [r0] =>
    obtain ⟨k, rfl⟩ : ∃ k, fuel = k + 1 := ⟨fuel - 1, by omega⟩
    rw [ndquad_vec, ndLowArgs]
    unfold quad_vec
    cases hf : f [(r0 []).1] with
    | none => simp [qEvalLow, hf]
    | some y =>
      have hngt : ¬((0:ℚ) > tol) := not_lt.mpr (le_of_lt htol)
      simp [qEvalLow, hf, quadVecLoop, hngt]
  | r0 :: r1 :: rest =>
    have ih := ndquad_eval_low_aux ((r1 :: rest).map fun rng => bind_last_argument rng ((r0 []).1))
      (bind_last_argument f ((r0 []).1)) tol norm_func fuel (by simp) htol hfuel
    rw [ndquad_vec, ndLowArgs]
    · show qEvalLow _ (r0 []).1 (r0 []).2 norm_func = _
      show ((fun z => (ndquad_vec (bind_last_argument f z)
          ((r1 :: rest).map fun rng => bind_last_argument rng z) tol qEvalLow norm_func
            fuel).map Prod.fst) (r0 []).1).map (fun y => (y, 0)) = _
      rw [show (fun z => (ndquad_vec (bind_last_argument f z)
          ((r1 :: rest).map fun rng => bind_last_argument rng z) tol qEvalLow norm_func
            fuel).map Prod.fst) (r0 []).1 =
          (ndquad_vec (bind_last_argument f ((r0 []).1))
            ((r1 :: rest).map fun rng => bind_last_argument rng ((r0 []).1)) tol qEvalLow
            norm_func fuel).map Prod.fst from rfl]
      rw [ih]
      simp only [bind_last_argument, Option.map_map]
      rfl
    · simp
    · simp
termination_by ranges.length
decreasing_by simp

/-- C9: when the generic driver is instantiated with the rule that evaluates
its integrand at the lower limit, `ndquad_vec` evaluates `f` at exactly
`ndLowArgs ranges`: the recursion peels the range list front-to-back while
appending each bound outer value as the LAST positional argument (via
`bind_last_argument`, for the integrand and every remaining range function
alike), so the outermost range's variable arrives as `f`'s last argument and
the innermost range's variable as `f`'s first argument. -/
theorem ndquad_vec_binding_order (ranges : List (List ℚ → ℚ × ℚ)) (f : List ℚ → Option ℚ)
    (tol : ℚ) (norm_func : ℚ → ℚ) (fuel : Nat)
    (hne : ranges ≠ []) (htol : 0 < tol) (hfuel : 1 ≤ fuel) :
    ndquad_vec f ranges tol qEvalLow norm_func fuel =
      (f (ndLowArgs ranges)).map fun y => (y, 0) :=
  ndquad_eval_low_aux ranges f tol norm_func fuel hne htol hfuel

/-- C9 witness: a concrete two-dimensional instance. -/
theorem ndquad_vec_binding_order_witness :
    ndquad_vec (fun args => some (args.getD 0 0 + 10 * args.getD 1 0))
      [fun _ => (3, 99), fun _ => (5, 99)] 1 qEvalLow (fun x => x) 1 =
    ((fun args => some (args.getD 0 0 + 10 * args.getD 1 0))
        (ndLowArgs [fun _ => (3, 99), fun _ => (5, 99)])).map fun y => (y, 0) :=
  ndquad_vec_binding_order [fun _ => (3, 99), fun _ => (5, 99)]
    (fun args => some (args.getD 0 0 + 10 * args.getD 1 0)) 1 (fun x => x) 1
    (by simp) (by norm_num) (le_refl 1)

/-- C8 (claim as stated is false): `quad_vec` performs no tolerance
validation — called with the zero tolerance it does not fail fast with a
configuration error at entry; it evaluates the rule (and hence the
integrand) and here returns a normal result. -/
theorem no_tolerance_validation_counterexample :
    quad_vec (fun _ => some (0:ℚ)) 0 1 0 qEvalLow (fun x => x) 1 = some (0, 0) := by
  norm_num [quad_vec, qEvalLow, quadVecLoop]

/-- C8 (amended): an empty range list makes `ndquad_vec` fail at entry
(`ranges[0]` raises `IndexError`, modelled as `none`) before any integrand
evaluation or recursion; but a zero (or negative) tolerance is not
validated at all — `quad_vec` proceeds straight into the subdivision loop,
returning a normal result when the seeded global error already meets the
tolerance and otherwise subdividing without bound. -/
theorem invalid_config_behaviour :
    (∀ (f : List ℚ → Option ℚ) (tol : ℚ) (q : QuadRule) (norm_func : ℚ → ℚ) (fuel : Nat),
        ndquad_vec f [] tol q norm_func fuel = none) ∧
    quad_vec (fun _ => some (5:ℚ)) 0 2 0 qEvalLow (fun x => x) 1 = some (5, 0) := by
  constructor
  · intro f tol q norm_func fuel; rw [ndquad_vec]
  · norm_num [quad_vec, qEvalLow, quadVecLoop]
